import Mathlib

/-!
Shallow embedding of the tsctl state engine
(src/backend/src/tsctl/state.py of the threatstack-rule-manager repository).

Python dicts are modelled as insertion-ordered association lists over String
keys.  The state file document, the per-organization filesystem mirror, the
six state-file primitives, the `push` and `refresh` reconcilers and the
`lazy` decorator are translated below; theorems about the frozen claims
follow the definitions.
-/

namespace Tsctl

/-- Python dict lookup: the binding of the key, if present. -/
def alookup {α : Type} (l : List (String × α)) (k : String) : Option α :=
  match l with
  | [] => none
  | (k1, v) :: t => if k1 = k then some v else alookup t k

/-- Python dict assignment `d[k] = v`: replace the binding in place, else append. -/
def aset {α : Type} (l : List (String × α)) (k : String) (v : α) : List (String × α) :=
  match l with
  | [] => [(k, v)]
  | (k1, v1) :: t => if k1 = k then (k, v) :: t else (k1, v1) :: aset t k v

/-- Python dict `d.pop(k)` (key removal). -/
def aerase {α : Type} (l : List (String × α)) (k : String) : List (String × α) :=
  match l with
  | [] => []
  | (k1, v1) :: t => if k1 = k then aerase t k else (k1, v1) :: aerase t k

/-- The keys of a dict, in insertion order (Python `list(d)`). -/
def akeys {α : Type} (l : List (String × α)) : List String := l.map (fun p => p.1)

/-- Python str.endswith, computed on the character lists (so that concrete
instances reduce); `strEndsWith s t` holds iff `t` is a suffix of `s`. -/
def strEndsWith (s t : String) : Bool := t.data.isSuffixOf s.data

/-- Status of a tracked rule in the state file:
the Literal RuleStatus = 'rule' | 'tags' | 'both' | 'del' of state.py. -/
inductive RuleStatus : Type
  | rule
  | tags
  | both
  | del
deriving DecidableEq

/-- Status of a tracked ruleset in the state file:
the Literal RulesetStatus = 'true' | 'false' | 'del' of state.py. -/
inductive RulesetStatus : Type
  | modTrue
  | modFalse
  | modDel
deriving DecidableEq

/-- One ruleset entry of the state file:
`\x7b modified: ..., ruleIds: \x7b rule_id: status \x7d \x7d`. -/
structure RulesetEntry : Type where
  modified : RulesetStatus
  ruleIds : List (String × RuleStatus)
deriving DecidableEq

/-- The map tracked for one organization: ruleset_id to its entry. -/
abbrev OrgEntry : Type := List (String × RulesetEntry)

/-- The state file document (schema of spec section 3). -/
structure StateFile : Type where
  workspace : String
  organizations : List (String × OrgEntry)
deriving DecidableEq

/-- Message of the ValueError raised by `_state_add_ruleset` on a deleted ruleset
(state.py line 462; the interpolated ruleset id of the f-string is elided). -/
def cannotReAddDeletedRulesetMsg : String :=
  "Cannot add ruleset ID back to state file after being deleted."

/-- Message of the ValueError raised by `_state_add_ruleset` when unmodifying
(state.py line 464). -/
def cannotUnmodifyMsg : String :=
  "Cannot unmodify a ruleset once it has been marked modified."

/-- Message of the ValueError raised by `_state_add_rule` on a deleted rule
(state.py line 556). -/
def cannotModifyDeletedRuleMsg : String :=
  "Cannot modify a deleted rule."

/-- `State._state_add_organization` (state.py lines 387-409), committing form. -/
def stateAddOrganization (st : StateFile) (org : String) : StateFile :=
  match alookup st.organizations org with
  | some _ => st
  | none => { st with organizations := aset st.organizations org [] }

/-- `State._state_delete_organization` (state.py lines 411-438), committing form:
pop the organization entry if present. -/
def stateDeleteOrganization (st : StateFile) (org : String) : StateFile :=
  { st with organizations := aerase st.organizations org }

/-- `State._state_add_ruleset` (state.py lines 440-481), committing form.
A raised ValueError is modelled as `Except.error`; on error nothing is
written, so the document on disk stays the input `st`. -/
def stateAddRuleset (st : StateFile) (org rsid : String) (action : RulesetStatus) :
    Except String StateFile :=
  match alookup st.organizations org with
  | some m =>
    match alookup m rsid with
    | some e =>
      if action = .modTrue ∧ e.modified = .modFalse then
        .ok { st with organizations := (
                aset st.organizations org (aset m rsid { e with modified := .modTrue }) ) }
      else if action ≠ .modDel ∧ e.modified = .modDel then
        .error cannotReAddDeletedRulesetMsg
      else if action = .modFalse ∧ e.modified = .modTrue then
        .error cannotUnmodifyMsg
      else
        .ok st
    | none =>
      .ok { st with organizations := (
              aset st.organizations org (aset m rsid { modified := action, ruleIds := [] }) ) }
  | none =>
    -- lines 470-475: `_state_add_organization` first, then insert the new entry.
    .ok { st with organizations := (
            aset (aset st.organizations org []) org
              (aset ([] : OrgEntry) rsid { modified := action, ruleIds := [] }) ) }

/-- `State._state_delete_ruleset` (state.py lines 483-530), committing form.
The failed `assert` of line 511 is modelled as an error. -/
def stateDeleteRuleset (st : StateFile) (sfx org rsid : String) :
    Except String StateFile :=
  match alookup st.organizations org with
  | some m =>
    match alookup m rsid with
    | some e =>
      if strEndsWith rsid sfx then
        -- pop the entry; if the organization map becomes empty pop it too.
        if (aerase m rsid).length = 0 then
          .ok { st with organizations := aerase st.organizations org }
        else
          .ok { st with organizations := aset st.organizations org (aerase m rsid) }
      else if e.modified ≠ .modDel then
        .ok { st with organizations := (
                aset st.organizations org
                  (aset m rsid { modified := .modDel, ruleIds := [] }) ) }
      else if e.ruleIds = [] then
        .ok st
      else
        .error "AssertionError"
    | none =>
      .ok { st with organizations := (
              aset st.organizations org (aset m rsid { modified := .modDel, ruleIds := [] }) ) }
  | none =>
    .ok { st with organizations := (
            aset st.organizations org [(rsid, { modified := .modDel, ruleIds := [] })] ) }

/-- Write one rule status into the nested document: the in-place Python mutation
`state[organizations][org][rsid][ruleIds][rid] = v`. -/
def setRuleStatus (st : StateFile) (org : String) (m : OrgEntry) (e : RulesetEntry)
    (rsid rid : String) (v : RuleStatus) : StateFile :=
  { st with organizations := (
      aset st.organizations org (aset m rsid { e with ruleIds := aset e.ruleIds rid v }) ) }

/-- `State._state_add_rule` (state.py lines 532-583), committing form.
The source handles a missing ruleset (or organization) by `_state_add_ruleset`
with action `false` (and `_state_add_organization`) followed by a recursive
call, which then lands in the rule-absent branch; those recursions are
unfolded here. -/
def stateAddRule (st : StateFile) (org rsid rid : String) (endpoint : RuleStatus) :
    Except String StateFile :=
  match alookup st.organizations org with
  | some m =>
    match alookup m rsid with
    | some e =>
      match alookup e.ruleIds rid with
      | some cur =>
        if endpoint ≠ .del ∧ cur = .del then
          .error cannotModifyDeletedRuleMsg
        else if endpoint = .tags ∧ cur = .both then
          .ok st
        else if endpoint = .rule ∧ cur = .both then
          .ok st
        else if endpoint = .both ∧ cur ≠ .both then
          .ok (setRuleStatus st org m e rsid rid .both)
        else if endpoint = .tags ∧ cur = .rule then
          .ok (setRuleStatus st org m e rsid rid .both)
        else if endpoint = .rule ∧ cur = .tags then
          .ok (setRuleStatus st org m e rsid rid .both)
        else
          .ok st
      | none =>
        .ok (setRuleStatus st org m e rsid rid endpoint)
    | none =>
      .ok { st with organizations := (
              aset st.organizations org
                (aset m rsid { modified := .modFalse, ruleIds := [(rid, endpoint)] }) ) }
  | none =>
    .ok { st with organizations := (
            aset (aset st.organizations org []) org
              (aset ([] : OrgEntry) rsid
                { modified := .modFalse, ruleIds := [(rid, endpoint)] }) ) }

/-- `State._state_delete_rule` (state.py lines 585-633), committing form. -/
def stateDeleteRule (st : StateFile) (sfx org rsid rid : String) : StateFile :=
  match alookup st.organizations org with
  | some m =>
    match alookup m rsid with
    | some e =>
      match alookup e.ruleIds rid with
      | some cur =>
        if strEndsWith rid sfx then
          { st with organizations := (
              aset st.organizations org (aset m rsid { e with ruleIds := aerase e.ruleIds rid }) ) }
        else if cur ≠ .del then
          setRuleStatus st org m e rsid rid .del
        else
          st
      | none =>
        setRuleStatus st org m e rsid rid .del
    | none =>
      { st with organizations := (
          aset st.organizations org
            (aset m rsid { modified := .modFalse, ruleIds := [(rid, .del)] }) ) }
  | none =>
    { st with organizations := (
        aset st.organizations org [(rsid, { modified := .modFalse, ruleIds := [(rid, .del)] })] ) }

/-- The committing read-modify-write wrapper around `_state_add_ruleset`: the
ValueError propagates before `write_json` runs (state.py line 478), so on a
raise the document on disk is the unchanged input. -/
def commitAddRuleset (st : StateFile) (org rsid : String) (a : RulesetStatus) : StateFile :=
  match stateAddRuleset st org rsid a with
  | .ok st' => st'
  | .error _ => st

/-- The status a given rule carries in the document, if tracked. -/
def ruleStatusIn (st : StateFile) (org rsid rid : String) : Option RuleStatus :=
  match alookup st.organizations org with
  | none => none
  | some m =>
    match alookup m rsid with
    | none => none
    | some e => alookup e.ruleIds rid

/-- The join of the rule-status lattice of spec section 3 invariant 5:
`both` is the join of `rule` and `tags`, `del` absorbs everything. -/
def RuleStatus.join : RuleStatus → RuleStatus → RuleStatus
  | .del, _ => .del
  | _, .del => .del
  | .both, _ => .both
  | _, .both => .both
  | .rule, .tags => .both
  | .tags, .rule => .both
  | .rule, .rule => .rule
  | .tags, .tags => .tags

/-- "Pending work" of a ruleset modified field: `true` means a PUT is due and
`del` a DELETE; `false` means nothing is due for the ruleset itself. -/
def rulesetPending : RulesetStatus → Bool
  | .modTrue => true
  | .modDel => true
  | .modFalse => false

/-- One ruleset entry is pruned: its ruleIds map is nonempty or its modified
field carries pending work. -/
def prunedEntry (e : RulesetEntry) : Bool :=
  !e.ruleIds.isEmpty || rulesetPending e.modified

/-- One organization entry is pruned: nonempty, and every ruleset entry pruned. -/
def prunedOrg (m : OrgEntry) : Bool :=
  !m.isEmpty && m.all (fun p => prunedEntry p.2)

/-- The pruning invariant of the state file (spec section 4.C): no organization
entry with an empty ruleset map, no ruleset entry with an empty ruleIds map
and no pending work. -/
def pruned (st : StateFile) : Bool :=
  st.organizations.all (fun p => prunedOrg p.2)

/-! The filesystem mirror of one organization (spec section 3 and state.py
`_create_rule` / `_create_ruleset`): ruleset directories holding a
ruleset.json and rule directories, each rule directory holding a rule.json
and a tags.json.  The JSON documents other than the ruleIds list are opaque
strings. -/

/-- One rule directory: `<ruleset_dir>/<rule_id>/` with rule.json and
tags.json. -/
structure RuleDir : Type where
  ruleJson : String
  tagsJson : String
deriving DecidableEq

/-- The ruleset.json document: the persisted `ruleIds` list plus the opaque
remaining fields (name, description). -/
structure RulesetJson : Type where
  ruleIds : List String
  meta : String
deriving DecidableEq

/-- One ruleset directory: `<org_dir>/<ruleset_id>/`. -/
structure RulesetDir : Type where
  rulesetJson : RulesetJson
  rules : List (String × RuleDir)
deriving DecidableEq

/-- The children of one organization directory, by directory name. -/
abbrev OrgFs : Type := List (String × RulesetDir)

/-- One remote write performed by `State.push` through the API capability. -/
inductive RemoteCall : Type
  | deleteRuleset (rsid : String)
  | postRuleset (data : RulesetJson)
  | postRule (rsid : String) (doc : String)
  | postTags (rid : String) (doc : String)
  | putRuleset (rsid : String) (data : RulesetJson)
  | putRule (rsid rid : String) (doc : String)
  | deleteRule (rsid rid : String)
deriving DecidableEq

/-- The trace of remote calls a push performed, in order. -/
abbrev Trace : Type := List RemoteCall

/-- The remote client capability as `State.push` consumes it (tsctl/api.py is
interface-only per the spec).  Success of a call is a function of its
arguments: `none` / `false` stands for a raised URLError or a response
carrying `errors`; `some id` carries the remote-assigned id of a POST. -/
structure Api : Type where
  deleteRuleset : String → Bool
  postRuleset : RulesetJson → Option String
  postRule : String → String → Option String
  postTags : String → String → Bool
  putRuleset : String → RulesetJson → Bool
  putRule : String → String → String → Bool
  deleteRule : String → String → Bool

/-- One iteration of the local-only rule creation loop of `State.push`
(state.py lines 146-173, and identically 205-233): read rule.json and
tags.json, POST the rule against `postTarget`; on success set the pending
status of the old id to `tags` (line 156), rename the rule directory to the
remote-assigned id (line 158) and append that id to the ruleset JSON
accumulator (line 159); then POST the tags and on success pop the pending
entry (lines 167-168, the status was just set to `tags`), else leave it.  A
missing rule directory makes `read_json` raise, aborting the push; the error
carries the trace so far. -/
def pushLocalRule (api : Api) (postTarget rid : String) (e : RulesetEntry)
    (dir : RulesetDir) (acc : List String) (tr : Trace) :
    Except (String × Trace) (RulesetEntry × RulesetDir × List String × Trace) :=
  match alookup dir.rules rid with
  | none => .error ("read_json: missing rule directory", tr)
  | some rd =>
    match api.postRule postTarget rd.ruleJson with
    | none => .ok (e, dir, acc, tr ++ [RemoteCall.postRule postTarget rd.ruleJson])
    | some newRid =>
      if api.postTags newRid rd.tagsJson then
        if alookup (aset e.ruleIds rid .tags) rid = some .tags then
          .ok ({ e with ruleIds := aerase (aset e.ruleIds rid .tags) rid },
            { dir with rules := aset (aerase dir.rules rid) newRid rd },
            acc ++ [newRid],
            tr ++ [RemoteCall.postRule postTarget rd.ruleJson,
                   RemoteCall.postTags newRid rd.tagsJson])
        else
          .ok ({ e with ruleIds := aset (aset e.ruleIds rid .tags) rid .rule },
            { dir with rules := aset (aerase dir.rules rid) newRid rd },
            acc ++ [newRid],
            tr ++ [RemoteCall.postRule postTarget rd.ruleJson,
                   RemoteCall.postTags newRid rd.tagsJson])
      else
        .ok ({ e with ruleIds := aset e.ruleIds rid .tags },
          { dir with rules := aset (aerase dir.rules rid) newRid rd },
          acc ++ [newRid],
          tr ++ [RemoteCall.postRule postTarget rd.ruleJson,
                 RemoteCall.postTags newRid rd.tagsJson])

/-- The loop of `pushLocalRule` over the locally generated rule ids. -/
def pushLocalRules (api : Api) (postTarget : String) (rids : List String)
    (e : RulesetEntry) (dir : RulesetDir) (acc : List String) (tr : Trace) :
    Except (String × Trace) (RulesetEntry × RulesetDir × List String × Trace) :=
  match rids with
  | [] => .ok (e, dir, acc, tr)
  | rid :: rest =>
    match pushLocalRule api postTarget rid e dir acc tr with
    | .error err => .error err
    | .ok (e1, dir1, acc1, tr1) => pushLocalRules api postTarget rest e1 dir1 acc1 tr1

/-- The local-only ruleset branch of `State.push` (state.py lines 128-187):
read ruleset.json, strip the (all locally generated) ruleIds, POST the
ruleset; on failure skip the ruleset entirely; on success run the local-only
rule loop against the new id, rename the ruleset directory, write the final
ruleset.json, and drop the pending entry when empty, else relocate it under
the remote-assigned id (lines 181-187). -/
def pushNewRuleset (api : Api) (rsid : String) (e : RulesetEntry) (m : OrgEntry)
    (fs : OrgFs) (tr : Trace) :
    Except (String × Trace) (OrgEntry × OrgFs × Trace) :=
  match alookup fs rsid with
  | none => .error ("read_json: missing ruleset directory", tr)
  | some dir =>
    match api.postRuleset { dir.rulesetJson with ruleIds := [] } with
    | none => .ok (m, fs, tr ++ [RemoteCall.postRuleset { dir.rulesetJson with ruleIds := [] }])
    | some newRsid =>
      match pushLocalRules api newRsid dir.rulesetJson.ruleIds e dir []
          (tr ++ [RemoteCall.postRuleset { dir.rulesetJson with ruleIds := [] }]) with
      | .error err => .error err
      | .ok (e1, dir1, acc, tr2) =>
        .ok ((if e1.ruleIds.length = 0 then aerase m rsid
              else aerase (aset m newRsid e1) rsid),
          aset (aerase fs rsid) newRsid
            { dir1 with rulesetJson := { dir.rulesetJson with ruleIds := acc } },
          tr2)

/-- The dispatch on one remaining tracked rule of an existing ruleset
(state.py lines 239-290): `rule` PUTs the rule, `tags` POSTs the tags,
`both` PUTs then downgrades to `tags` and POSTs the tags, `del` DELETEs;
each entry is popped on success and kept on URLError. -/
def pushPlatformRule (api : Api) (rsid rid : String) (e : RulesetEntry)
    (dir : RulesetDir) (tr : Trace) :
    Except (String × Trace) (RulesetEntry × Trace) :=
  match alookup e.ruleIds rid with
  | none => .error ("KeyError", tr)
  | some RuleStatus.rule =>
    match alookup dir.rules rid with
    | none => .error ("read_json: missing rule directory", tr)
    | some rd =>
      if api.putRule rsid rid rd.ruleJson then
        .ok ({ e with ruleIds := aerase e.ruleIds rid },
          tr ++ [RemoteCall.putRule rsid rid rd.ruleJson])
      else
        .ok (e, tr ++ [RemoteCall.putRule rsid rid rd.ruleJson])
  | some RuleStatus.tags =>
    match alookup dir.rules rid with
    | none => .error ("read_json: missing rule directory", tr)
    | some rd =>
      if api.postTags rid rd.tagsJson then
        .ok ({ e with ruleIds := aerase e.ruleIds rid },
          tr ++ [RemoteCall.postTags rid rd.tagsJson])
      else
        .ok (e, tr ++ [RemoteCall.postTags rid rd.tagsJson])
  | some RuleStatus.both =>
    match alookup dir.rules rid with
    | none => .error ("read_json: missing rule directory", tr)
    | some rd =>
      if api.putRule rsid rid rd.ruleJson then
        if api.postTags rid rd.tagsJson then
          .ok ({ e with ruleIds := aerase (aset e.ruleIds rid .tags) rid },
            tr ++ [RemoteCall.putRule rsid rid rd.ruleJson,
                   RemoteCall.postTags rid rd.tagsJson])
        else
          .ok ({ e with ruleIds := aset e.ruleIds rid .tags },
            tr ++ [RemoteCall.putRule rsid rid rd.ruleJson,
                   RemoteCall.postTags rid rd.tagsJson])
      else
        .ok (e, tr ++ [RemoteCall.putRule rsid rid rd.ruleJson])
  | some RuleStatus.del =>
    if api.deleteRule rsid rid then
      .ok ({ e with ruleIds := aerase e.ruleIds rid },
        tr ++ [RemoteCall.deleteRule rsid rid])
    else
      .ok (e, tr ++ [RemoteCall.deleteRule rsid rid])

/-- The loop of `pushPlatformRule` over the snapshot of tracked rule ids
(Python `list(state[...][ruleset_id][ruleIds])`, state.py line 239). -/
def pushPlatformRules (api : Api) (rsid : String) (rids : List String)
    (e : RulesetEntry) (dir : RulesetDir) (tr : Trace) :
    Except (String × Trace) (RulesetEntry × Trace) :=
  match rids with
  | [] => .ok (e, tr)
  | rid :: rest =>
    match pushPlatformRule api rsid rid e dir tr with
    | .error err => .error err
    | .ok (e1, tr1) => pushPlatformRules api rsid rest e1 dir tr1

/-- The existing-ruleset branch of `State.push` (state.py lines 188-294):
split the persisted ruleIds into local-only and remote ids, PUT the ruleset
when `modified = true` (success sets it `false`, failure keeps it), run the
local-only rule loop against this ruleset id accumulating onto the remote
ids, write ruleset.json once, dispatch the remaining tracked rules, and drop
the entry when `modified = false` and nothing remains. -/
def pushExistingRuleset (api : Api) (sfx rsid : String) (e : RulesetEntry)
    (m : OrgEntry) (fs : OrgFs) (tr : Trace) :
    Except (String × Trace) (OrgEntry × OrgFs × Trace) :=
  match alookup fs rsid with
  | none => .error ("read_json: missing ruleset directory", tr)
  | some dir =>
    match (if e.modified = .modTrue then
        (if api.putRuleset rsid { dir.rulesetJson with
            ruleIds := dir.rulesetJson.ruleIds.filter (fun r => !strEndsWith r sfx) } then
          ({ e with modified := .modFalse }, tr ++ [RemoteCall.putRuleset rsid
            { dir.rulesetJson with
              ruleIds := dir.rulesetJson.ruleIds.filter (fun r => !strEndsWith r sfx) }])
        else
          (e, tr ++ [RemoteCall.putRuleset rsid
            { dir.rulesetJson with
              ruleIds := dir.rulesetJson.ruleIds.filter (fun r => !strEndsWith r sfx) }]))
      else (e, tr)) with
    | (e0, tr0) =>
      match pushLocalRules api rsid
          (dir.rulesetJson.ruleIds.filter (fun r => strEndsWith r sfx)) e0 dir
          (dir.rulesetJson.ruleIds.filter (fun r => !strEndsWith r sfx)) tr0 with
      | .error err => .error err
      | .ok (e1, dir1, acc, tr1) =>
        match pushPlatformRules api rsid (akeys e1.ruleIds) e1
            { dir1 with rulesetJson := { dir.rulesetJson with ruleIds := acc } } tr1 with
        | .error err => .error err
        | .ok (e2, tr2) =>
          .ok ((if e2.modified = .modFalse ∧ e2.ruleIds.length = 0
                then aerase (aset m rsid e2) rsid
                else aset m rsid e2),
            aset fs rsid { dir1 with rulesetJson := { dir.rulesetJson with ruleIds := acc } },
            tr2)

/-- The delete-intent branch of `State.push` (state.py lines 116-124):
DELETE the ruleset remotely; pop the entry on success, keep it on error. -/
def pushDelRuleset (api : Api) (rsid : String) (m : OrgEntry) (tr : Trace) :
    OrgEntry × Trace :=
  if api.deleteRuleset rsid then
    (aerase m rsid, tr ++ [RemoteCall.deleteRuleset rsid])
  else
    (m, tr ++ [RemoteCall.deleteRuleset rsid])

/-- The per-ruleset loop of `State.push` (state.py line 113) over the
snapshot of pending ruleset ids, dispatching to the delete-intent,
local-only and existing-ruleset branches. -/
def pushLoop (api : Api) (sfx : String) (keys : List String) (m : OrgEntry)
    (fs : OrgFs) (tr : Trace) :
    Except (String × Trace) (OrgEntry × OrgFs × Trace) :=
  match keys with
  | [] => .ok (m, fs, tr)
  | rsid :: rest =>
    match alookup m rsid with
    | none => .error ("KeyError", tr)
    | some e =>
      if e.modified = .modDel then
        match pushDelRuleset api rsid m tr with
        | (m1, tr1) => pushLoop api sfx rest m1 fs tr1
      else if strEndsWith rsid sfx then
        match pushNewRuleset api rsid e m fs tr with
        | .error err => .error err
        | .ok (m1, fs1, tr1) => pushLoop api sfx rest m1 fs1 tr1
      else
        match pushExistingRuleset api sfx rsid e m fs tr with
        | .error err => .error err
        | .ok (m1, fs1, tr1) => pushLoop api sfx rest m1 fs1 tr1

/-- The outcome of one `State.push` call for one organization: the remote
calls it performed in order and either the resulting filesystem mirror and
state file document (written once, state.py line 298) or a propagated
exception.  On an exception the state file is never written, and the loop
snapshot plus final pop of the empty organization mirror lines 113 and
295-298. -/
structure PushResult : Type where
  trace : Trace
  out : Except String (OrgFs × StateFile)

/-- `State.push` (state.py lines 99-301) for one organization: a no-op
without remote calls when the organization is absent from the state file
(lines 299-301). -/
def push (api : Api) (sfx org : String) (fs : OrgFs) (st : StateFile) : PushResult :=
  match alookup st.organizations org with
  | none => { trace := [], out := .ok (fs, st) }
  | some m =>
    match pushLoop api sfx (akeys m) m fs [] with
    | .error (msg, tr) => { trace := tr, out := .error msg }
    | .ok (m1, fs1, tr) =>
      if m1.length = 0 then
        { trace := tr, out := .ok (fs1, { st with organizations := aerase st.organizations org }) }
      else
        { trace := tr, out := .ok (fs1, { st with organizations := aset st.organizations org m1 }) }

/-- Result values returned by the engine operations wrapped by the `lazy`
decorator (state.py lines 29-49): a State instance (`self`), a plain string
(the new id returned by create_ruleset / create_rule), or None. -/
inductive LazyResult : Type
  | stateInstance
  | strResult (s : String)
  | noneResult
deriving DecidableEq

/-- What the `lazy` wrapper does after the wrapped call returns. -/
inductive LazyEffect : Type
  | noPush
  | pushOnEngineInstance
  | attributeError
deriving DecidableEq

/-- The wrapper returned by the `lazy` decorator (state.py lines 39-47):
when `lazy_eval` is set the result is returned untouched; otherwise
`res.push()` is called on a non-None result `res`, which is a push on the
engine instance when the result is `self` but raises AttributeError when the
result is a string (str has no attribute push). -/
def lazyWrap (lazyEval : Bool) (res : LazyResult) : LazyEffect :=
  if lazyEval then .noPush
  else
    match res with
    | .noneResult => .noPush
    | .stateInstance => .pushOnEngineInstance
    | .strResult _ => .attributeError

/-- A Python value as passed for ruleset_data / rule_data / tags_data, plus
the type object `str` itself, the right operand of the identity tests
`ruleset_data is str` (state.py line 1043), `rule_data is str` (line 1071)
and `tags_data is str` (line 1078). -/
inductive PyVal : Type
  | pyStr (s : String)
  | pyDict (d : String)
  | pyNone
  | pyTypeStr
deriving DecidableEq

/-- The Python identity test `v is str`: true only when `v` is the very type
object `str`; a str instance is a distinct object from the type object. -/
def isStrTypeObject : PyVal → Bool
  | .pyTypeStr => true
  | _ => false

/-- Where create_ruleset / create_rule take a payload from. -/
inductive DataSource : Type
  | readNamedFile (path : PyVal)
  | inline (v : PyVal)
deriving DecidableEq

/-- The payload-selection branch of `State.create_ruleset` (state.py lines
1043-1046) and of `State.create_rule` (lines 1071-1074): `if data is str:
read_json(data) else: data`. -/
def selectPayload (v : PyVal) : DataSource :=
  if isStrTypeObject v then .readNamedFile v else .inline v

/-- The tags-selection branch of `State.create_rule` (state.py lines
1076-1081): None turns into an empty dict, `tags_data is str` would read a
file, anything else is used inline. -/
def selectTags (tagsData : PyVal) : DataSource :=
  if tagsData = .pyNone then .inline (.pyDict "")
  else if isStrTypeObject tagsData then .readNamedFile tagsData
  else .inline tagsData

/-- Spec section 8 invariant 2: every rule entry of the tracked map whose
status is not `del` names a rule directory that exists on disk under its
ruleset directory. -/
def entriesExistOnDisk (fs : OrgFs) (m : OrgEntry) : Bool :=
  m.all (fun rsp =>
    rsp.2.ruleIds.all (fun rp =>
      rp.2 == RuleStatus.del ||
      (match alookup fs rsp.1 with
       | none => false
       | some dir => (alookup dir.rules rp.1).isSome)))

/-- The invariant of spec section 8 item 2 stated against the state file. -/
def stateEntriesExist (fs : OrgFs) (st : StateFile) (org : String) : Bool :=
  match alookup st.organizations org with
  | none => true
  | some m => entriesExistOnDisk fs m

/-- A remote capability whose rule POST succeeds and whose tags POST fails:
the C8 failure scenario. -/
def tagsFailApi : Api where
  deleteRuleset := fun _ => true
  postRuleset := fun _ => some "RS9"
  postRule := fun _ _ => some "RL9"
  postTags := fun _ _ => false
  putRuleset := fun _ _ => true
  putRule := fun _ _ _ => true
  deleteRule := fun _ _ => true

/-- An organization mirror holding one local-only ruleset with one local-only
rule. -/
def tagsFailFs : OrgFs :=
  [("a-localonly", ⟨⟨["b-localonly"], "meta"⟩, [("b-localonly", ⟨"rulejson", "tagsjson"⟩)]⟩)]

/-- The state file tracking that ruleset and rule as pending. -/
def tagsFailSt : StateFile :=
  ⟨"", [("o", [("a-localonly", ⟨.modTrue, [("b-localonly", .both)]⟩)])]⟩

/-- One remote fetch during refresh: either a raised URLError or
KeyboardInterrupt (both caught by the except clause of state.py line 368) or
a returned value. -/
inductive Fetch (α : Type) : Type
  | raise
  | val (a : α)

/-- A remote ruleset as refresh consumes it: its id plus the ruleset.json
document left after popping the id, createdAt and updatedAt fields
(state.py lines 346-351). -/
structure RemoteRuleset : Type where
  id : String
  json : RulesetJson
deriving DecidableEq

/-- A remote rule: its id plus the full document written to rule.json. -/
structure RemoteRule : Type where
  id : String
  doc : String
deriving DecidableEq

/-- The get_rulesets outcome as refresh distinguishes it (state.py lines
337-344): a falsy response, a response carrying `errors`, or the ruleset
list. -/
inductive RulesetsResp : Type
  | falsy
  | withErrors
  | ok (rss : List RemoteRuleset)

/-- The read-only remote capability consumed by `State.refresh`. -/
structure RApi : Type where
  getRulesets : Fetch RulesetsResp
  getRulesetRules : String → Fetch (List RemoteRule)
  getRuleTags : String → Fetch String

/-- Fetch the rules of one ruleset into rule directories (state.py lines
360-367); a raise anywhere aborts the whole fetch. -/
def fetchRules (api : RApi) (rules : List RemoteRule) :
    Except Unit (List (String × RuleDir)) :=
  match rules with
  | [] => .ok []
  | r :: rest =>
    match api.getRuleTags r.id with
    | .raise => .error ()
    | .val tagsDoc =>
      match fetchRules api rest with
      | .error _ => .error ()
      | .ok t => .ok ((r.id, { ruleJson := r.doc, tagsJson := tagsDoc }) :: t)

/-- Fetch every ruleset with its rules into the `.remote/` staging tree
(state.py lines 346-367). -/
def fetchRulesets (api : RApi) (rss : List RemoteRuleset) : Except Unit OrgFs :=
  match rss with
  | [] => .ok []
  | rr :: rest =>
    match api.getRulesetRules rr.id with
    | .raise => .error ()
    | .val rules =>
      match fetchRules api rules with
      | .error _ => .error ()
      | .ok rdirs =>
        match fetchRulesets api rest with
        | .error _ => .error ()
        | .ok t => .ok ((rr.id, { rulesetJson := rr.json, rules := rdirs }) :: t)

/-- One organization directory together with its transient staging
directories: `.backup/` and `.remote/` exist exactly when the option is
some. -/
structure OrgDir : Type where
  children : OrgFs
  backup : Option OrgFs
  remote : Option OrgFs
deriving DecidableEq

/-- What ends up inside the fresh `.backup/` after the refresh preamble
(state.py lines 318-331): a leftover `.remote/` is deleted, a leftover
`.backup/`'s children are first moved back among the children, then every
child is moved into the fresh `.backup/`. -/
def refreshBackupContents (d : OrgDir) : OrgFs :=
  d.children ++ (match d.backup with | some b => b | none => [])

/-- `State.refresh` (state.py lines 303-383).  After the preamble the
children sit in `.backup/` and `.remote/` is empty.  A falsy or
errors-bearing get_rulesets response returns early, leaving the staging
directories in place and the organization directory gutted (lines 339-344).
A raised URLError or KeyboardInterrupt during the fetch deletes `.remote/`,
moves the backup children back and removes `.backup/`, leaving the state
file untouched (lines 368-376).  On success every child of `.remote/` is
moved in, both staging directories are deleted, and the organization entry
is dropped from the state file (lines 377-383). -/
def refresh (api : RApi) (org : String) (d : OrgDir) (st : StateFile) :
    OrgDir × StateFile :=
  match api.getRulesets with
  | .raise =>
    ({ children := refreshBackupContents d, backup := none, remote := none }, st)
  | .val .falsy =>
    ({ children := [], backup := some (refreshBackupContents d), remote := some [] }, st)
  | .val .withErrors =>
    ({ children := [], backup := some (refreshBackupContents d), remote := some [] }, st)
  | .val (.ok rss) =>
    match fetchRulesets api rss with
    | .error _ =>
      ({ children := refreshBackupContents d, backup := none, remote := none }, st)
    | .ok tree =>
      ({ children := tree, backup := none, remote := none },
       stateDeleteOrganization st org)

/-- Every remote call the capability can make succeeds (each POST returns an
id): the environment of the first push in the idempotence claim. -/
def AllOk (api : Api) : Prop :=
  (∀ x, api.deleteRuleset x = true) ∧
  (∀ d, (api.postRuleset d).isSome = true) ∧
  (∀ t d, (api.postRule t d).isSome = true) ∧
  (∀ r d, api.postTags r d = true) ∧
  (∀ r d, api.putRuleset r d = true) ∧
  (∀ a b c, api.putRule a b c = true) ∧
  (∀ a b, api.deleteRule a b = true)

/-- Remote-assigned ruleset ids never collide with a given set of pending
ruleset ids. -/
def FreshRulesetIds (api : Api) (ks : List String) : Prop :=
  ∀ d i, api.postRuleset d = some i → ¬ i ∈ ks

/-- Every rule tracked in a pending entry appears in the ruleset.json ruleIds
list persisted on disk. -/
def TrackedSubset (e : RulesetEntry) (dir : RulesetDir) : Prop :=
  ∀ p ∈ e.ruleIds, p.1 ∈ dir.rulesetJson.ruleIds

/-- `TrackedSubset` for every pending local-only ruleset of an organization. -/
def LocalSubset (sfx : String) (m : OrgEntry) (fs : OrgFs) : Prop :=
  ∀ rsid e dir, alookup m rsid = some e → strEndsWith rsid sfx = true →
    alookup fs rsid = some dir → TrackedSubset e dir

/-- A remote capability all of whose calls succeed, its POSTs returning the
fresh ids N1 (rulesets) and N2 (rules). -/
def allOkApi : Api where
  deleteRuleset := fun _ => true
  postRuleset := fun _ => some "N1"
  postRule := fun _ _ => some "N2"
  postTags := fun _ _ => true
  putRuleset := fun _ _ => true
  putRule := fun _ _ _ => true
  deleteRule := fun _ _ => true

end Tsctl

namespace Tsctl

/-! Basic association-list lemmas. -/

theorem alookup_aset_self {α : Type} (l : List (String × α)) (k : String) (v : α) :
    alookup (aset l k v) k = some v := by
  induction l with
  | nil => simp [aset, alookup]
  | cons p t ih =>
    obtain ⟨k1, v1⟩ := p
    by_cases h : k1 = k
    · simp [aset, alookup, h]
    · simp [aset, alookup, h, ih]

theorem alookup_aset_ne {α : Type} (l : List (String × α)) (k k' : String) (v : α)
    (h : k' ≠ k) : alookup (aset l k v) k' = alookup l k' := by
  induction l with
  | nil =>
    simp only [aset, alookup]
    rw [if_neg (Ne.symm h)]
  | cons p t ih =>
    obtain ⟨k1, v1⟩ := p
    by_cases hk : k1 = k
    · subst hk
      simp only [aset, if_pos rfl, alookup]
      rw [if_neg (Ne.symm h), if_neg (Ne.symm h)]
    · by_cases hk' : k1 = k'
      · simp [aset, alookup, hk, hk', h]
      · simp [aset, alookup, hk, hk', ih]

theorem alookup_aerase_self {α : Type} (l : List (String × α)) (k : String) :
    alookup (aerase l k) k = none := by
  induction l with
  | nil => simp [aerase, alookup]
  | cons p t ih =>
    obtain ⟨k1, v1⟩ := p
    by_cases h : k1 = k
    · simp [aerase, h, ih]
    · simp [aerase, alookup, h, ih]

theorem alookup_aerase_ne {α : Type} (l : List (String × α)) (k k' : String)
    (h : k' ≠ k) : alookup (aerase l k) k' = alookup l k' := by
  induction l with
  | nil => simp [aerase]
  | cons p t ih =>
    obtain ⟨k1, v1⟩ := p
    by_cases hk : k1 = k
    · subst hk
      simp [aerase, alookup, ih, Ne.symm h]
    · simp [aerase, alookup, hk, ih]

theorem aerase_aset {α : Type} (l : List (String × α)) (k : String) (v : α) :
    aerase (aset l k v) k = aerase l k := by
  induction l with
  | nil => simp [aset, aerase]
  | cons p t ih =>
    obtain ⟨k1, v1⟩ := p
    by_cases h : k1 = k
    · simp [aset, aerase, h]
    · simp [aset, aerase, h, ih]

theorem mem_akeys_aerase {α : Type} (l : List (String × α)) (k x : String)
    (hx : x ∈ akeys (aerase l k)) : x ∈ akeys l ∧ x ≠ k := by
  induction l with
  | nil => simp [aerase, akeys] at hx
  | cons p t ih =>
    obtain ⟨k1, v1⟩ := p
    by_cases h : k1 = k
    · subst h
      simp only [aerase, if_pos rfl] at hx
      rcases ih hx with ⟨h1, h2⟩
      exact ⟨by simp [akeys] at h1 ⊢; exact Or.inr h1, h2⟩
    · simp only [aerase, if_neg h, akeys, List.map_cons, List.mem_cons] at hx
      rcases hx with hx | hx
      · subst hx
        exact ⟨by simp [akeys], h⟩
      · rcases ih hx with ⟨h1, h2⟩
        exact ⟨by simp [akeys] at h1 ⊢; exact Or.inr h1, h2⟩

theorem akeys_nil_iff {α : Type} (l : List (String × α)) :
    akeys l = [] ↔ l = [] := by
  cases l <;> simp [akeys]

end Tsctl

namespace Tsctl

/-! Helper lemmas about the state-file primitives. -/

theorem ruleStatusIn_setRuleStatus (st : StateFile) (org : String) (m : OrgEntry)
    (e : RulesetEntry) (rsid rid : String) (v : RuleStatus) :
    ruleStatusIn (setRuleStatus st org m e rsid rid v) org rsid rid = some v := by
  simp [ruleStatusIn, setRuleStatus, alookup_aset_self]

theorem aset_ne_nil {α : Type} (l : List (String × α)) (k : String) (v : α) :
    aset l k v ≠ [] := by
  cases l with
  | nil => simp [aset]
  | cons p t =>
    obtain ⟨k1, v1⟩ := p
    by_cases h : k1 = k <;> simp [aset, h]

theorem all_aset {α : Type} (l : List (String × α)) (p : String × α → Bool) (k : String)
    (v : α) (hl : l.all p = true) (hv : p (k, v) = true) : (aset l k v).all p = true := by
  induction l with
  | nil => simp [aset, hv]
  | cons q t ih =>
    obtain ⟨k1, v1⟩ := q
    simp only [List.all_cons, Bool.and_eq_true] at hl
    by_cases h : k1 = k
    · simp [aset, h, hv, hl.2]
    · simp only [aset, if_neg h, List.all_cons, Bool.and_eq_true]
      exact ⟨hl.1, ih hl.2⟩

theorem all_aerase {α : Type} (l : List (String × α)) (p : String × α → Bool) (k : String)
    (hl : l.all p = true) : (aerase l k).all p = true := by
  induction l with
  | nil => simp [aerase]
  | cons q t ih =>
    obtain ⟨k1, v1⟩ := q
    simp only [List.all_cons, Bool.and_eq_true] at hl
    by_cases h : k1 = k
    · simp only [aerase, if_pos h]
      exact ih hl.2
    · simp only [aerase, if_neg h, List.all_cons, Bool.and_eq_true]
      exact ⟨hl.1, ih hl.2⟩

theorem all_lookup {α : Type} (l : List (String × α)) (p : String × α → Bool) (k : String)
    (v : α) (hl : l.all p = true) (hk : alookup l k = some v) : p (k, v) = true := by
  induction l with
  | nil => simp [alookup] at hk
  | cons q t ih =>
    obtain ⟨k1, v1⟩ := q
    simp only [List.all_cons, Bool.and_eq_true] at hl
    by_cases h : k1 = k
    · subst h
      simp [alookup] at hk
      subst hk
      exact hl.1
    · simp only [alookup, if_neg h] at hk
      exact ih hl.2 hk

end Tsctl

namespace Tsctl

/-- C5: `addRule` on a tracked rule whose status is not `del` results in the
lattice join of the current status and the endpoint; on a `del` rule with a
non-`del` endpoint it raises; on an untracked ruleset the ruleset entry is
auto-created with `modified = false` holding the rule at the endpoint. -/
theorem addRule_is_join (st : StateFile) (org rsid rid : String) (m : OrgEntry)
    (hm : alookup st.organizations org = some m) (ep : RuleStatus) (hep : ep ≠ .del) :
    (∀ e s, alookup m rsid = some e → alookup e.ruleIds rid = some s →
      (s ≠ .del → ∃ st', stateAddRule st org rsid rid ep = .ok st' ∧
        ruleStatusIn st' org rsid rid = some (RuleStatus.join s ep)) ∧
      (s = .del → stateAddRule st org rsid rid ep = .error cannotModifyDeletedRuleMsg)) ∧
    (alookup m rsid = none →
      stateAddRule st org rsid rid ep = .ok
        { st with organizations := (
            aset st.organizations org
              (aset m rsid { modified := .modFalse, ruleIds := [(rid, ep)] }) ) } ∧
      ruleStatusIn
        { st with organizations := (
            aset st.organizations org
              (aset m rsid { modified := .modFalse, ruleIds := [(rid, ep)] }) ) }
        org rsid rid = some ep) := by
  constructor
  · intro e s he hs
    constructor
    · intro hsne
      cases s <;> cases ep <;>
        first
        | exact absurd rfl hep
        | exact absurd rfl hsne
        | (refine ⟨st, ?_, ?_⟩
           · simp [stateAddRule, hm, he, hs]
           · simp [ruleStatusIn, hm, he, hs, RuleStatus.join])
        | (refine ⟨setRuleStatus st org m e rsid rid .both, ?_, ?_⟩
           · simp [stateAddRule, hm, he, hs]
           · simpa [RuleStatus.join] using
               ruleStatusIn_setRuleStatus st org m e rsid rid .both)
    · intro hsdel
      subst hsdel
      cases ep <;> first
        | exact absurd rfl hep
        | simp [stateAddRule, hm, he, hs]
  · intro hnone
    constructor
    · simp [stateAddRule, hm, hnone]
    · simp [ruleStatusIn, alookup_aset_self, alookup]

/-- Witness for C5: joining status `rule` with endpoint `tags` on a concrete
document yields `both`. -/
theorem addRule_is_join_witness :
    ∃ st', stateAddRule ⟨"", [("o", [("rs", ⟨.modFalse, [("r", .rule)]⟩)])]⟩ "o" "rs" "r" .tags
        = .ok st' ∧
      ruleStatusIn st' "o" "rs" "r" = some (RuleStatus.join .rule .tags) := by
  have h := addRule_is_join ⟨"", [("o", [("rs", ⟨.modFalse, [("r", .rule)]⟩)])]⟩
    "o" "rs" "r" [("rs", ⟨.modFalse, [("r", .rule)]⟩)] (by decide) .tags (by decide)
  exact (h.1 ⟨.modFalse, [("r", .rule)]⟩ .rule (by decide) (by decide)).1 (by decide)

/-- C6: a ruleset tracked with `modified = del` rejects `addRuleset` with any
non-`del` action: the call raises the ValueError of state.py line 462, and the
committed document is unchanged. -/
theorem addRuleset_del_terminal (st : StateFile) (org rsid : String) (m : OrgEntry)
    (e : RulesetEntry) (hm : alookup st.organizations org = some m)
    (he : alookup m rsid = some e) (hdel : e.modified = .modDel)
    (action : RulesetStatus) (ha : action ≠ .modDel) :
    stateAddRuleset st org rsid action = .error cannotReAddDeletedRulesetMsg ∧
    commitAddRuleset st org rsid action = st := by
  have herr : stateAddRuleset st org rsid action = .error cannotReAddDeletedRulesetMsg := by
    cases action <;> first
      | exact absurd rfl ha
      | simp [stateAddRuleset, hm, he, hdel]
  exact ⟨herr, by simp [commitAddRuleset, herr]⟩

/-- Witness for C6: re-adding a deleted ruleset on a concrete document raises
and commits nothing. -/
theorem addRuleset_del_terminal_witness :
    stateAddRuleset ⟨"", [("o", [("rs", ⟨.modDel, []⟩)])]⟩ "o" "rs" .modTrue
        = .error cannotReAddDeletedRulesetMsg ∧
    commitAddRuleset ⟨"", [("o", [("rs", ⟨.modDel, []⟩)])]⟩ "o" "rs" .modTrue
        = ⟨"", [("o", [("rs", ⟨.modDel, []⟩)])]⟩ :=
  addRuleset_del_terminal ⟨"", [("o", [("rs", ⟨.modDel, []⟩)])]⟩ "o" "rs"
    [("rs", ⟨.modDel, []⟩)] ⟨.modDel, []⟩ (by decide) (by decide) (by decide)
    .modTrue (by decide)

end Tsctl

namespace Tsctl

/-! Lemmas about the pruning invariant. -/

theorem aset_aset_same {α : Type} (l : List (String × α)) (k : String) (v w : α) :
    aset (aset l k v) k w = aset l k w := by
  induction l with
  | nil => simp [aset]
  | cons p t ih =>
    obtain ⟨k1, v1⟩ := p
    by_cases h : k1 = k
    · simp [aset, h]
    · simp [aset, h, ih]

theorem prunedEntry_of_ruleIds_ne_nil (e : RulesetEntry) (h : e.ruleIds ≠ []) :
    prunedEntry e = true := by
  rcases e with ⟨md, l⟩
  cases l with
  | nil => exact absurd rfl h
  | cons q t => simp [prunedEntry]

theorem prunedEntry_of_pending (e : RulesetEntry) (h : rulesetPending e.modified = true) :
    prunedEntry e = true := by
  simp [prunedEntry, h]

theorem prunedOrg_of (m : OrgEntry) (h1 : m ≠ [])
    (h2 : m.all (fun p => prunedEntry p.2) = true) : prunedOrg m = true := by
  cases m with
  | nil => exact absurd rfl h1
  | cons q t => simpa [prunedOrg] using h2

theorem prunedOrg_all (m : OrgEntry) (h : prunedOrg m = true) :
    m.all (fun p => prunedEntry p.2) = true := by
  simp only [prunedOrg, Bool.and_eq_true] at h
  exact h.2

theorem pruned_orgs (st : StateFile) (h : pruned st = true) :
    st.organizations.all (fun p => prunedOrg p.2) = true := h

theorem pruned_of_orgs (st : StateFile) (l : List (String × OrgEntry))
    (h : l.all (fun p => prunedOrg p.2) = true) :
    pruned { st with organizations := l } = true := h

end Tsctl

namespace Tsctl

/-- C7 counterexample: on a pruned document, `delRule` of the only
(local-only suffixed) rule of a ruleset tracked with `modified = false`
commits a document holding a ruleset entry whose ruleIds map is empty and
whose modified field carries no pending work, so the claimed pruning
invariant does not hold after every committing state-file primitive. -/
theorem pruning_invariant_cex :
    pruned ⟨"", [("o", [("rs", ⟨.modFalse, [("r-localonly", .both)]⟩)])]⟩ = true ∧
    stateDeleteRule ⟨"", [("o", [("rs", ⟨.modFalse, [("r-localonly", .both)]⟩)])]⟩
        "-localonly" "o" "rs" "r-localonly"
      = ⟨"", [("o", [("rs", ⟨.modFalse, []⟩)])]⟩ ∧
    pruned ⟨"", [("o", [("rs", ⟨.modFalse, []⟩)])]⟩ = false := by
  refine ⟨rfl, ?_, rfl⟩
  decide

/-- C7 amended: on a pruned document, `delOrg`, `delRuleset` and `addRule`
preserve the pruning invariant; `addOrg` preserves it when the organization is
already tracked; `addRuleset` preserves it when the action is not `false`; and
`delRule` preserves it when the deleted rule does not carry the local-only
suffix.  (The excluded cases, `addOrg` of an untracked organization,
`addRuleset` action `false` creating a fresh entry, and `delRule` popping the
last local-only rule of an unmodified ruleset, can commit unpruned documents,
as the counterexample shows for `delRule`.) -/
theorem pruning_invariant_amended (st : StateFile) (h : pruned st = true)
    (sfx org rsid rid : String) (a : RulesetStatus) (ep : RuleStatus) :
    pruned (stateDeleteOrganization st org) = true ∧
    (∀ st', stateDeleteRuleset st sfx org rsid = .ok st' → pruned st' = true) ∧
    (∀ st', stateAddRule st org rsid rid ep = .ok st' → pruned st' = true) ∧
    (alookup st.organizations org ≠ none → pruned (stateAddOrganization st org) = true) ∧
    (∀ st', a ≠ .modFalse → stateAddRuleset st org rsid a = .ok st' → pruned st' = true) ∧
    (strEndsWith rid sfx = false → pruned (stateDeleteRule st sfx org rsid rid) = true) := by
  refine ⟨?_, ?_, ?_, ?_, ?_, ?_⟩
  · exact all_aerase _ _ _ (pruned_orgs st h)
  · intro st' hok
    rcases horg : alookup st.organizations org with _ | m
    · simp only [stateDeleteRuleset, horg, Except.ok.injEq] at hok
      subst hok
      refine pruned_of_orgs _ _ (all_aset _ _ _ _ (pruned_orgs st h) ?_)
      exact prunedOrg_of _ (by simp) (by simp [prunedEntry, rulesetPending])
    · have hmall := prunedOrg_all m (all_lookup _ _ _ _ (pruned_orgs st h) horg)
      rcases hrs : alookup m rsid with _ | e
      · simp only [stateDeleteRuleset, horg, hrs, Except.ok.injEq] at hok
        subst hok
        refine pruned_of_orgs _ _ (all_aset _ _ _ _ (pruned_orgs st h) ?_)
        refine prunedOrg_of _ (aset_ne_nil _ _ _) (all_aset _ _ _ _ hmall ?_)
        exact prunedEntry_of_pending _ (by rfl)
      · simp only [stateDeleteRuleset, horg, hrs] at hok
        by_cases hsfx : strEndsWith rsid sfx = true
        · rw [if_pos hsfx] at hok
          by_cases hlen : (aerase m rsid).length = 0
          · rw [if_pos hlen] at hok
            simp only [Except.ok.injEq] at hok
            subst hok
            exact pruned_of_orgs _ _ (all_aerase _ _ _ (pruned_orgs st h))
          · rw [if_neg hlen] at hok
            simp only [Except.ok.injEq] at hok
            subst hok
            refine pruned_of_orgs _ _ (all_aset _ _ _ _ (pruned_orgs st h) ?_)
            refine prunedOrg_of _ ?_ (all_aerase _ _ _ hmall)
            show aerase m rsid ≠ []
            intro hnil
            exact hlen (by rw [hnil]; rfl)
        · rw [if_neg hsfx] at hok
          by_cases hmod : e.modified ≠ .modDel
          · rw [if_pos hmod] at hok
            simp only [Except.ok.injEq] at hok
            subst hok
            refine pruned_of_orgs _ _ (all_aset _ _ _ _ (pruned_orgs st h) ?_)
            refine prunedOrg_of _ (aset_ne_nil _ _ _) (all_aset _ _ _ _ hmall ?_)
            exact prunedEntry_of_pending _ (by rfl)
          · rw [if_neg hmod] at hok
            by_cases hnil : e.ruleIds = []
            · rw [if_pos hnil] at hok
              simp only [Except.ok.injEq] at hok
              subst hok
              exact h
            · rw [if_neg hnil] at hok
              exact absurd hok (by simp)
  · intro st' hok
    rcases horg : alookup st.organizations org with _ | m
    · simp only [stateAddRule, horg, Except.ok.injEq] at hok
      subst hok
      refine pruned_of_orgs _ _ ?_
      rw [aset_aset_same]
      refine all_aset _ _ _ _ (pruned_orgs st h) ?_
      refine prunedOrg_of _ (aset_ne_nil _ _ _) ?_
      refine all_aset _ _ _ _ (by rfl) ?_
      exact prunedEntry_of_ruleIds_ne_nil _ (by simp)
    · have hmall := prunedOrg_all m (all_lookup _ _ _ _ (pruned_orgs st h) horg)
      rcases hrs : alookup m rsid with _ | e
      · simp only [stateAddRule, horg, hrs, Except.ok.injEq] at hok
        subst hok
        refine pruned_of_orgs _ _ (all_aset _ _ _ _ (pruned_orgs st h) ?_)
        refine prunedOrg_of _ (aset_ne_nil _ _ _) (all_aset _ _ _ _ hmall ?_)
        exact prunedEntry_of_ruleIds_ne_nil _ (by simp)
      · have hset : ∀ v : RuleStatus,
            pruned (setRuleStatus st org m e rsid rid v) = true := by
          intro v
          refine pruned_of_orgs _ _ (all_aset _ _ _ _ (pruned_orgs st h) ?_)
          refine prunedOrg_of _ (aset_ne_nil _ _ _) (all_aset _ _ _ _ hmall ?_)
          exact prunedEntry_of_ruleIds_ne_nil _ (aset_ne_nil _ _ _)
        rcases hcur : alookup e.ruleIds rid with _ | cur
        · simp only [stateAddRule, horg, hrs, hcur, Except.ok.injEq] at hok
          subst hok
          exact hset ep
        · simp only [stateAddRule, horg, hrs, hcur] at hok
          cases ep <;> cases cur <;> simp at hok <;> subst hok <;>
            first
            | exact h
            | exact hset .both
  · intro hne
    rcases horg : alookup st.organizations org with _ | m
    · exact absurd horg hne
    · simp [stateAddOrganization, horg, h]
  · intro st' hane hok
    rcases horg : alookup st.organizations org with _ | m
    · simp only [stateAddRuleset, horg, Except.ok.injEq] at hok
      subst hok
      refine pruned_of_orgs _ _ ?_
      rw [aset_aset_same]
      refine all_aset _ _ _ _ (pruned_orgs st h) ?_
      refine prunedOrg_of _ (aset_ne_nil _ _ _) ?_
      refine all_aset _ _ _ _ (by rfl) ?_
      refine prunedEntry_of_pending _ ?_
      cases a with
      | modTrue => rfl
      | modFalse => exact absurd rfl hane
      | modDel => rfl
    · have hmall := prunedOrg_all m (all_lookup _ _ _ _ (pruned_orgs st h) horg)
      rcases hrs : alookup m rsid with _ | e
      · simp only [stateAddRuleset, horg, hrs, Except.ok.injEq] at hok
        subst hok
        refine pruned_of_orgs _ _ (all_aset _ _ _ _ (pruned_orgs st h) ?_)
        refine prunedOrg_of _ (aset_ne_nil _ _ _) (all_aset _ _ _ _ hmall ?_)
        refine prunedEntry_of_pending _ ?_
        cases a with
        | modTrue => rfl
        | modFalse => exact absurd rfl hane
        | modDel => rfl
      · simp only [stateAddRuleset, horg, hrs] at hok
        by_cases h1 : a = .modTrue ∧ e.modified = .modFalse
        · rw [if_pos h1] at hok
          simp only [Except.ok.injEq] at hok
          subst hok
          refine pruned_of_orgs _ _ (all_aset _ _ _ _ (pruned_orgs st h) ?_)
          refine prunedOrg_of _ (aset_ne_nil _ _ _) (all_aset _ _ _ _ hmall ?_)
          exact prunedEntry_of_pending _ (by rfl)
        · rw [if_neg h1] at hok
          by_cases h2 : a ≠ .modDel ∧ e.modified = .modDel
          · rw [if_pos h2] at hok
            exact absurd hok (by simp)
          · rw [if_neg h2] at hok
            by_cases h3 : a = .modFalse ∧ e.modified = .modTrue
            · rw [if_pos h3] at hok
              exact absurd hok (by simp)
            · rw [if_neg h3] at hok
              simp only [Except.ok.injEq] at hok
              subst hok
              exact h
  · intro hsfx
    rcases horg : alookup st.organizations org with _ | m
    · simp only [stateDeleteRule, horg]
      refine pruned_of_orgs _ _ (all_aset _ _ _ _ (pruned_orgs st h) ?_)
      refine prunedOrg_of _ (by simp) ?_
      simp only [List.all_cons, List.all_nil, Bool.and_true]
      exact prunedEntry_of_ruleIds_ne_nil _ (by simp)
    · have hmall := prunedOrg_all m (all_lookup _ _ _ _ (pruned_orgs st h) horg)
      have hset : ∀ e v,
          pruned (setRuleStatus st org m e rsid rid v) = true := by
        intro e v
        refine pruned_of_orgs _ _ (all_aset _ _ _ _ (pruned_orgs st h) ?_)
        refine prunedOrg_of _ (aset_ne_nil _ _ _) (all_aset _ _ _ _ hmall ?_)
        exact prunedEntry_of_ruleIds_ne_nil _ (aset_ne_nil _ _ _)
      rcases hrs : alookup m rsid with _ | e
      · simp only [stateDeleteRule, horg, hrs]
        refine pruned_of_orgs _ _ (all_aset _ _ _ _ (pruned_orgs st h) ?_)
        refine prunedOrg_of _ (aset_ne_nil _ _ _) (all_aset _ _ _ _ hmall ?_)
        exact prunedEntry_of_ruleIds_ne_nil _ (by simp)
      · rcases hcur : alookup e.ruleIds rid with _ | cur
        · simp only [stateDeleteRule, horg, hrs, hcur]
          exact hset e .del
        · simp only [stateDeleteRule, horg, hrs, hcur, hsfx, Bool.false_eq_true, if_false]
          by_cases hdel : cur ≠ .del
          · rw [if_pos hdel]
            exact hset e .del
          · rw [if_neg hdel]
            exact h

/-- Witness for C7 amended: on a concrete pruned document, `delOrg` keeps the
document pruned. -/
theorem pruning_invariant_amended_witness :
    pruned (stateDeleteOrganization
      ⟨"", [("o", [("rs", ⟨.modTrue, [("r", .both)]⟩)])]⟩ "o") = true :=
  (pruning_invariant_amended ⟨"", [("o", [("rs", ⟨.modTrue, [("r", .both)]⟩)])]⟩
    (by rfl) "-localonly" "o" "rs" "r" .modTrue .both).1

end Tsctl

namespace Tsctl

/-- C10: a string argument to create_ruleset / create_rule is never the type
object `str`, so the `is str` identity tests are false on it, the
file-reading branch is unreachable, and the string itself is used as the
payload. -/
theorem string_payload_never_read_as_file (s : String) :
    isStrTypeObject (PyVal.pyStr s) = false ∧
    selectPayload (PyVal.pyStr s) = DataSource.inline (PyVal.pyStr s) ∧
    selectTags (PyVal.pyStr s) = DataSource.inline (PyVal.pyStr s) := by
  refine ⟨rfl, rfl, ?_⟩
  simp [selectTags, isStrTypeObject]

/-- C9: in eager mode (`lazy_eval` falsy) the lazy wrapper calls `.push()` on
the wrapped result: that is a push on the engine instance for operations
returning `self`, but for create_ruleset / create_rule, which return the new
id string, the attribute lookup raises AttributeError and no push on the
engine happens; in lazy mode nothing is pushed for any result. -/
theorem eager_push_on_string_result :
    lazyWrap false (LazyResult.strResult "e0d7-localonly") = LazyEffect.attributeError ∧
    LazyEffect.attributeError ≠ LazyEffect.pushOnEngineInstance ∧
    lazyWrap false LazyResult.stateInstance = LazyEffect.pushOnEngineInstance ∧
    lazyWrap false LazyResult.noneResult = LazyEffect.noPush ∧
    (∀ r, lazyWrap true r = LazyEffect.noPush) := by
  refine ⟨rfl, by decide, rfl, rfl, fun r => rfl⟩

/-- C8: evaluating `push` at the failing input.  Before the push every
non-del entry of the state file names an existing rule directory; the push
completes (rule POST succeeds, tags POST fails), and afterwards the state
file still tracks the rule under its old local-only id with status `tags`
while the directory on disk was renamed to the remote-assigned id, so the
entry references a directory that no longer exists. -/
theorem push_stale_rule_entry_after_tags_failure :
    stateEntriesExist tagsFailFs tagsFailSt "o" = true ∧
    (push tagsFailApi "-localonly" "o" tagsFailFs tagsFailSt).out =
      Except.ok ([("RS9", ⟨⟨["RL9"], "meta"⟩, [("RL9", ⟨"rulejson", "tagsjson"⟩)]⟩)],
        ⟨"", [("o", [("RS9", ⟨.modTrue, [("b-localonly", .tags)]⟩)])]⟩) ∧
    ruleStatusIn ⟨"", [("o", [("RS9", ⟨.modTrue, [("b-localonly", .tags)]⟩)])]⟩
      "o" "RS9" "b-localonly" = some RuleStatus.tags ∧
    alookup [("RS9", (⟨⟨["RL9"], "meta"⟩, [("RL9", ⟨"rulejson", "tagsjson"⟩)]⟩ : RulesetDir))]
      "RS9" = some ⟨⟨["RL9"], "meta"⟩, [("RL9", ⟨"rulejson", "tagsjson"⟩)]⟩ ∧
    alookup ([("RL9", ⟨"rulejson", "tagsjson"⟩)] : List (String × RuleDir)) "b-localonly"
      = none ∧
    stateEntriesExist [("RS9", ⟨⟨["RL9"], "meta"⟩, [("RL9", ⟨"rulejson", "tagsjson"⟩)]⟩)]
      ⟨"", [("o", [("RS9", ⟨.modTrue, [("b-localonly", .tags)]⟩)])]⟩ "o" = false := by
  exact ⟨by decide, rfl, by decide, by decide, by decide, by decide⟩

end Tsctl

namespace Tsctl

/-- C3: a refresh whose get_rulesets returns the ruleset list and whose
per-ruleset and per-rule fetches all succeed ends with every child of
`.remote/` moved into the organization directory (the children are exactly
the fetched tree), neither `.backup/` nor `.remote/` remaining, and the
organization entry absent from the state file. -/
theorem refresh_success_postcondition (api : RApi) (org : String) (d : OrgDir)
    (st : StateFile) (rss : List RemoteRuleset) (tree : OrgFs)
    (hr : api.getRulesets = .val (.ok rss))
    (hf : fetchRulesets api rss = .ok tree) :
    (refresh api org d st).1.children = tree ∧
    (refresh api org d st).1.backup = none ∧
    (refresh api org d st).1.remote = none ∧
    alookup (refresh api org d st).2.organizations org = none := by
  simp [refresh, hr, hf, stateDeleteOrganization, alookup_aerase_self]

/-- Witness for C3: a successful refresh fetching one empty ruleset on a
concrete organization. -/
theorem refresh_success_postcondition_witness :
    (refresh ⟨.val (.ok [⟨"A", ⟨[], "ra"⟩⟩]), fun _ => .val [], fun _ => .val ""⟩
        "o" ⟨[("X-localonly", ⟨⟨[], "x"⟩, []⟩)], none, none⟩
        ⟨"", [("o", [("X-localonly", ⟨.modTrue, []⟩)])]⟩).1.children
      = [("A", ⟨⟨[], "ra"⟩, []⟩)] ∧
    (refresh ⟨.val (.ok [⟨"A", ⟨[], "ra"⟩⟩]), fun _ => .val [], fun _ => .val ""⟩
        "o" ⟨[("X-localonly", ⟨⟨[], "x"⟩, []⟩)], none, none⟩
        ⟨"", [("o", [("X-localonly", ⟨.modTrue, []⟩)])]⟩).1.backup = none ∧
    (refresh ⟨.val (.ok [⟨"A", ⟨[], "ra"⟩⟩]), fun _ => .val [], fun _ => .val ""⟩
        "o" ⟨[("X-localonly", ⟨⟨[], "x"⟩, []⟩)], none, none⟩
        ⟨"", [("o", [("X-localonly", ⟨.modTrue, []⟩)])]⟩).1.remote = none ∧
    alookup (refresh ⟨.val (.ok [⟨"A", ⟨[], "ra"⟩⟩]), fun _ => .val [], fun _ => .val ""⟩
        "o" ⟨[("X-localonly", ⟨⟨[], "x"⟩, []⟩)], none, none⟩
        ⟨"", [("o", [("X-localonly", ⟨.modTrue, []⟩)])]⟩).2.organizations "o" = none :=
  refresh_success_postcondition
    ⟨.val (.ok [⟨"A", ⟨[], "ra"⟩⟩]), fun _ => .val [], fun _ => .val ""⟩
    "o" ⟨[("X-localonly", ⟨⟨[], "x"⟩, []⟩)], none, none⟩
    ⟨"", [("o", [("X-localonly", ⟨.modTrue, []⟩)])]⟩
    [⟨"A", ⟨[], "ra"⟩⟩] [("A", ⟨⟨[], "ra"⟩, []⟩)] rfl rfl

/-- C2 counterexample: when get_rulesets returns a response carrying
`errors`, refresh returns early (state.py lines 342-344): `.remote/` is NOT
deleted, the backed-up children are NOT moved back, and `.backup/` remains,
contradicting the claim that any failing fetch (including an errors
response) restores the directory. -/
theorem refresh_errors_response_cex :
    (refresh ⟨.val .withErrors, fun _ => .raise, fun _ => .raise⟩ "o"
        ⟨[("rs", ⟨⟨[], "m"⟩, []⟩)], none, none⟩ ⟨"", []⟩).1.remote = some [] ∧
    (refresh ⟨.val .withErrors, fun _ => .raise, fun _ => .raise⟩ "o"
        ⟨[("rs", ⟨⟨[], "m"⟩, []⟩)], none, none⟩ ⟨"", []⟩).1.backup
      = some [("rs", ⟨⟨[], "m"⟩, []⟩)] ∧
    (refresh ⟨.val .withErrors, fun _ => .raise, fun _ => .raise⟩ "o"
        ⟨[("rs", ⟨⟨[], "m"⟩, []⟩)], none, none⟩ ⟨"", []⟩).1.children = [] :=
  ⟨rfl, rfl, rfl⟩

/-- C2 amended: when the fetch fails by a raised URLError or
KeyboardInterrupt (from get_rulesets or anywhere inside the per-ruleset
loop), refresh deletes `.remote/`, moves every backed-up child back into the
organization directory, removes `.backup/` and leaves the state file
unchanged; but a falsy or errors-bearing get_rulesets response instead
returns early with both staging directories left in place (recovered only by
the next refresh's preamble). -/
theorem refresh_exception_restores (api : RApi) (org : String) (d : OrgDir)
    (st : StateFile) (hb : d.backup = none)
    (hfail : api.getRulesets = .raise ∨
      ∃ rss, api.getRulesets = .val (.ok rss) ∧ fetchRulesets api rss = .error ()) :
    (refresh api org d st).1.children = d.children ∧
    (refresh api org d st).1.backup = none ∧
    (refresh api org d st).1.remote = none ∧
    (refresh api org d st).2 = st := by
  rcases hfail with hr | ⟨rss, hr, hf⟩
  · simp [refresh, hr, refreshBackupContents, hb]
  · simp [refresh, hr, hf, refreshBackupContents, hb]

/-- Witness for C2 amended: a raise from get_rulesets on a concrete
organization directory restores it. -/
theorem refresh_exception_restores_witness :
    (refresh ⟨.raise, fun _ => .raise, fun _ => .raise⟩ "o"
        ⟨[("rs", ⟨⟨[], "m"⟩, []⟩)], none, none⟩ ⟨"", [("o", [])]⟩).1.children
      = [("rs", ⟨⟨[], "m"⟩, []⟩)] ∧
    (refresh ⟨.raise, fun _ => .raise, fun _ => .raise⟩ "o"
        ⟨[("rs", ⟨⟨[], "m"⟩, []⟩)], none, none⟩ ⟨"", [("o", [])]⟩).1.backup = none ∧
    (refresh ⟨.raise, fun _ => .raise, fun _ => .raise⟩ "o"
        ⟨[("rs", ⟨⟨[], "m"⟩, []⟩)], none, none⟩ ⟨"", [("o", [])]⟩).1.remote = none ∧
    (refresh ⟨.raise, fun _ => .raise, fun _ => .raise⟩ "o"
        ⟨[("rs", ⟨⟨[], "m"⟩, []⟩)], none, none⟩ ⟨"", [("o", [])]⟩).2 = ⟨"", [("o", [])]⟩ :=
  refresh_exception_restores ⟨.raise, fun _ => .raise, fun _ => .raise⟩ "o"
    ⟨[("rs", ⟨⟨[], "m"⟩, []⟩)], none, none⟩ ⟨"", [("o", [])]⟩ rfl (Or.inl rfl)

end Tsctl

namespace Tsctl

/-- C4: pushing a local-only ruleset R with a single child rule r, when the
ruleset POST (returning NR), the rule POST (returning nr) and the tags POST
all succeed, leaves a mirror holding only the renamed ruleset directory NR
with the renamed rule directory nr, a ruleset.json whose ruleIds references
exactly nr, and a state file without the organization entry; neither R nor r
appears on disk (their lookups fail) and the remote-assigned ids do. -/
theorem push_localonly_rename (api : Api) (sfx org R r NR nr : String)
    (rj tj mt ws : String) (md : RulesetStatus) (s : RuleStatus)
    (hR : strEndsWith R sfx = true)
    (hmd : md ≠ .modDel)
    (hpostRs : api.postRuleset ⟨[], mt⟩ = some NR)
    (hpostRule : api.postRule NR rj = some nr)
    (hpostTags : api.postTags nr tj = true)
    (hNR : NR ≠ R) (hnr : nr ≠ r) :
    (push api sfx org [(R, ⟨⟨[r], mt⟩, [(r, ⟨rj, tj⟩)]⟩)]
        ⟨ws, [(org, [(R, ⟨md, [(r, s)]⟩)])]⟩).out =
      .ok ([(NR, ⟨⟨[nr], mt⟩, [(nr, ⟨rj, tj⟩)]⟩)], ⟨ws, []⟩) ∧
    alookup [(NR, (⟨⟨[nr], mt⟩, [(nr, ⟨rj, tj⟩)]⟩ : RulesetDir))] R = none ∧
    alookup [(NR, (⟨⟨[nr], mt⟩, [(nr, ⟨rj, tj⟩)]⟩ : RulesetDir))] NR =
      some ⟨⟨[nr], mt⟩, [(nr, ⟨rj, tj⟩)]⟩ ∧
    alookup [(nr, (⟨rj, tj⟩ : RuleDir))] r = none ∧
    alookup [(nr, (⟨rj, tj⟩ : RuleDir))] nr = some ⟨rj, tj⟩ ∧
    r ∉ ([nr] : List String) := by
  refine ⟨?_, ?_, ?_, ?_, ?_, ?_⟩
  · simp [push, pushLoop, pushNewRuleset, pushLocalRules, pushLocalRule,
      akeys, alookup, aset, aerase, hR, hmd, hpostRs, hpostRule, hpostTags]
  · simp [alookup, hNR]
  · simp [alookup]
  · simp [alookup, hnr]
  · simp [alookup]
  · simp [Ne.symm hnr]

end Tsctl

namespace Tsctl

/-- Witness for C4: a concrete all-success push of one local-only ruleset
with one local-only rule renames both to the remote-assigned ids. -/
theorem push_localonly_rename_witness :
    (push ⟨fun _ => true, fun _ => some "RS9", fun _ _ => some "RL9", fun _ _ => true,
        fun _ _ => true, fun _ _ _ => true, fun _ _ => true⟩ "-localonly" "o"
        [("a-localonly", ⟨⟨["b-localonly"], "mt"⟩, [("b-localonly", ⟨"rj", "tj"⟩)]⟩)]
        ⟨"", [("o", [("a-localonly", ⟨.modTrue, [("b-localonly", .both)]⟩)])]⟩).out =
      .ok ([("RS9", ⟨⟨["RL9"], "mt"⟩, [("RL9", ⟨"rj", "tj"⟩)]⟩)], ⟨"", []⟩) :=
  (push_localonly_rename
    ⟨fun _ => true, fun _ => some "RS9", fun _ _ => some "RL9", fun _ _ => true,
        fun _ _ => true, fun _ _ _ => true, fun _ _ => true⟩
    "-localonly" "o" "a-localonly" "b-localonly" "RS9" "RL9"
    "rj" "tj" "mt" "" .modTrue .both (by decide) (by decide) rfl rfl rfl
    (by decide) (by decide)).1

end Tsctl

namespace Tsctl

/-! Lemmas towards push idempotence. -/

theorem mem_aerase {α : Type} {p : String × α} (l : List (String × α)) (k : String)
    (h : p ∈ aerase l k) : p ∈ l ∧ p.1 ≠ k := by
  induction l with
  | nil => simp [aerase] at h
  | cons q t ih =>
    obtain ⟨k1, v1⟩ := q
    by_cases hk : k1 = k
    · subst hk
      simp only [aerase, if_pos rfl] at h
      rcases ih h with ⟨h1, h2⟩
      exact ⟨List.mem_cons_of_mem _ h1, h2⟩
    · simp only [aerase, if_neg hk] at h
      rcases List.mem_cons.mp h with h1 | h1
      · subst h1
        exact ⟨List.mem_cons_self _ _, hk⟩
      · rcases ih h1 with ⟨h2, h3⟩
        exact ⟨List.mem_cons_of_mem _ h2, h3⟩

theorem alookup_mem_akeys {α : Type} (l : List (String × α)) (k : String) (v : α)
    (h : alookup l k = some v) : k ∈ akeys l := by
  induction l with
  | nil => simp [alookup] at h
  | cons q t ih =>
    obtain ⟨k1, v1⟩ := q
    by_cases hk : k1 = k
    · subst hk
      simp [akeys, List.mem_cons]
    · simp only [alookup, if_neg hk] at h
      have hmem := ih h
      simp only [akeys, List.map_cons, List.mem_cons]
      exact Or.inr (by simpa [akeys] using hmem)

theorem mem_foldl_aerase {α : Type} {p : String × α} :
    ∀ (ks : List String) (l : List (String × α)),
      p ∈ ks.foldl (fun acc k => aerase acc k) l → p ∈ l ∧ p.1 ∉ ks := by
  intro ks
  induction ks with
  | nil =>
    intro l h
    simp only [List.foldl_nil] at h
    exact ⟨h, by simp⟩
  | cons k kt ih =>
    intro l h
    simp only [List.foldl_cons] at h
    rcases ih _ h with ⟨h1, h2⟩
    rcases mem_aerase _ _ h1 with ⟨h3, h4⟩
    refine ⟨h3, ?_⟩
    intro hmem
    rcases List.mem_cons.mp hmem with h5 | h5
    · exact h4 h5
    · exact h2 h5

theorem foldl_aerase_eq_nil {α : Type} (ks : List String) (l : List (String × α))
    (h : ∀ p ∈ l, p.1 ∈ ks) : ks.foldl (fun acc k => aerase acc k) l = [] := by
  rcases hres : ks.foldl (fun acc k => aerase acc k) l with _ | ⟨p, t⟩
  · rfl
  · exfalso
    have hp : p ∈ ks.foldl (fun acc k => aerase acc k) l := by
      rw [hres]
      exact List.mem_cons_self _ _
    rcases mem_foldl_aerase ks l hp with ⟨h1, h2⟩
    exact h2 (h p h1)

theorem pushLocalRule_step (api : Api) (hok : AllOk api) (target rid : String)
    (e : RulesetEntry) (dir : RulesetDir) (acc : List String) (tr : Trace)
    (e1 : RulesetEntry) (dir1 : RulesetDir) (acc1 : List String) (tr1 : Trace)
    (h : pushLocalRule api target rid e dir acc tr = .ok (e1, dir1, acc1, tr1)) :
    e1.ruleIds = aerase e.ruleIds rid ∧ e1.modified = e.modified := by
  rcases hrd : alookup dir.rules rid with _ | rd
  · simp [pushLocalRule, hrd] at h
  · rcases hpr : api.postRule target rd.ruleJson with _ | newRid
    · have hsome := hok.2.2.1 target rd.ruleJson
      rw [hpr] at hsome
      simp at hsome
    · have htags : api.postTags newRid rd.tagsJson = true := hok.2.2.2.1 newRid rd.tagsJson
      simp only [pushLocalRule, hrd, hpr, htags, if_true, alookup_aset_self,
        reduceIte, Except.ok.injEq, Prod.mk.injEq] at h
      obtain ⟨h1, h2, h3, h4⟩ := h
      subst h1
      exact ⟨by simp [aerase_aset], rfl⟩

theorem pushLocalRules_fold (api : Api) (hok : AllOk api) (target : String) :
    ∀ (rids : List String) (e : RulesetEntry) (dir : RulesetDir) (acc : List String)
      (tr : Trace) (e1 : RulesetEntry) (dir1 : RulesetDir) (acc1 : List String)
      (tr1 : Trace),
      pushLocalRules api target rids e dir acc tr = .ok (e1, dir1, acc1, tr1) →
      e1.ruleIds = rids.foldl (fun l rid => aerase l rid) e.ruleIds ∧
      e1.modified = e.modified := by
  intro rids
  induction rids with
  | nil =>
    intro e dir acc tr e1 dir1 acc1 tr1 h
    simp only [pushLocalRules, Except.ok.injEq, Prod.mk.injEq] at h
    obtain ⟨h1, h2, h3, h4⟩ := h
    subst h1
    simp
  | cons rid rest ih =>
    intro e dir acc tr e1 dir1 acc1 tr1 h
    rcases hstep : pushLocalRule api target rid e dir acc tr with ⟨msg, trc⟩ | ⟨ea, dira, acca, tra⟩
    · simp [pushLocalRules, hstep] at h
    · simp only [pushLocalRules, hstep] at h
      rcases pushLocalRule_step api hok target rid e dir acc tr ea dira acca tra hstep
        with ⟨hr, hm⟩
      rcases ih ea dira acca tra e1 dir1 acc1 tr1 h with ⟨hr2, hm2⟩
      constructor
      · rw [hr2, hr]
        simp [List.foldl_cons]
      · rw [hm2, hm]

end Tsctl

namespace Tsctl

theorem pushNewRuleset_clears (api : Api) (hok : AllOk api) (rsid : String)
    (e : RulesetEntry) (m : OrgEntry) (fs : OrgFs) (tr : Trace)
    (m1 : OrgEntry) (fs1 : OrgFs) (tr1 : Trace)
    (hsub : ∀ dir, alookup fs rsid = some dir → TrackedSubset e dir)
    (h : pushNewRuleset api rsid e m fs tr = .ok (m1, fs1, tr1)) :
    m1 = aerase m rsid ∧
    ∃ newRsid d1, (∃ d, api.postRuleset d = some newRsid) ∧
      fs1 = aset (aerase fs rsid) newRsid d1 := by
  rcases hdir : alookup fs rsid with _ | dir
  · simp [pushNewRuleset, hdir] at h
  · rcases hpr : api.postRuleset { dir.rulesetJson with ruleIds := [] } with _ | newRsid
    · have hsome := hok.2.1 { dir.rulesetJson with ruleIds := [] }
      rw [hpr] at hsome
      simp at hsome
    · rcases hloop : pushLocalRules api newRsid dir.rulesetJson.ruleIds e dir []
          (tr ++ [RemoteCall.postRuleset { dir.rulesetJson with ruleIds := [] }]) with
        ⟨msg, trc⟩ | ⟨ea, dira, acca, tra⟩
      · simp [pushNewRuleset, hdir, hpr, hloop] at h
      · simp only [pushNewRuleset, hdir, hpr, hloop, Except.ok.injEq, Prod.mk.injEq] at h
        obtain ⟨h1, h2, h3⟩ := h
        rcases pushLocalRules_fold api hok newRsid dir.rulesetJson.ruleIds e dir _
            _ ea dira acca tra hloop with ⟨hr, _⟩
        have hempty : ea.ruleIds = [] := by
          rw [hr]
          exact foldl_aerase_eq_nil _ _ (hsub dir hdir)
        constructor
        · rw [← h1, hempty]
          simp
        · exact ⟨newRsid, _, ⟨_, hpr⟩, h2.symm⟩

theorem pushPlatformRule_step (api : Api) (hok : AllOk api) (rsid rid : String)
    (e : RulesetEntry) (dir : RulesetDir) (tr : Trace) (e1 : RulesetEntry) (tr1 : Trace)
    (h : pushPlatformRule api rsid rid e dir tr = .ok (e1, tr1)) :
    e1.ruleIds = aerase e.ruleIds rid ∧ e1.modified = e.modified := by
  rcases hcur : alookup e.ruleIds rid with _ | cur
  · simp [pushPlatformRule, hcur] at h
  · cases cur with
    | rule =>
      rcases hrd : alookup dir.rules rid with _ | rd
      · simp [pushPlatformRule, hcur, hrd] at h
      · have hput : api.putRule rsid rid rd.ruleJson = true :=
          hok.2.2.2.2.2.1 rsid rid rd.ruleJson
        simp [pushPlatformRule, hcur, hrd, hput] at h
        obtain ⟨h1, h2⟩ := h
        subst h1
        exact ⟨rfl, rfl⟩
    | tags =>
      rcases hrd : alookup dir.rules rid with _ | rd
      · simp [pushPlatformRule, hcur, hrd] at h
      · have htg : api.postTags rid rd.tagsJson = true := hok.2.2.2.1 rid rd.tagsJson
        simp [pushPlatformRule, hcur, hrd, htg] at h
        obtain ⟨h1, h2⟩ := h
        subst h1
        exact ⟨rfl, rfl⟩
    | both =>
      rcases hrd : alookup dir.rules rid with _ | rd
      · simp [pushPlatformRule, hcur, hrd] at h
      · have hput : api.putRule rsid rid rd.ruleJson = true :=
          hok.2.2.2.2.2.1 rsid rid rd.ruleJson
        have htg : api.postTags rid rd.tagsJson = true := hok.2.2.2.1 rid rd.tagsJson
        simp [pushPlatformRule, hcur, hrd, hput, htg] at h
        obtain ⟨h1, h2⟩ := h
        subst h1
        exact ⟨by simp [aerase_aset], rfl⟩
    | del =>
      have hdel : api.deleteRule rsid rid = true := hok.2.2.2.2.2.2 rsid rid
      simp [pushPlatformRule, hcur, hdel] at h
      obtain ⟨h1, h2⟩ := h
      subst h1
      exact ⟨rfl, rfl⟩

theorem pushPlatformRules_clears (api : Api) (hok : AllOk api) (rsid : String)
    (dir : RulesetDir) :
    ∀ (rids : List String) (e : RulesetEntry) (tr : Trace) (e2 : RulesetEntry) (tr2 : Trace),
      (∀ x ∈ akeys e.ruleIds, x ∈ rids) →
      pushPlatformRules api rsid rids e dir tr = .ok (e2, tr2) →
      e2.ruleIds = [] ∧ e2.modified = e.modified := by
  intro rids
  induction rids with
  | nil =>
    intro e tr e2 tr2 hx h
    simp only [pushPlatformRules, Except.ok.injEq, Prod.mk.injEq] at h
    obtain ⟨h1, h2⟩ := h
    subst h1
    refine ⟨?_, rfl⟩
    rcases he : e.ruleIds with _ | ⟨p, t⟩
    · rfl
    · exfalso
      have hpm : p.1 ∈ akeys e.ruleIds := by
        rw [he]
        simp [akeys]
      simpa using hx _ hpm
  | cons rid rest ih =>
    intro e tr e2 tr2 hx h
    rcases hstep : pushPlatformRule api rsid rid e dir tr with ⟨msg, trc⟩ | ⟨ea, tra⟩
    · simp [pushPlatformRules, hstep] at h
    · simp only [pushPlatformRules, hstep] at h
      rcases pushPlatformRule_step api hok rsid rid e dir tr ea tra hstep with ⟨hr, hm⟩
      have hx' : ∀ x ∈ akeys ea.ruleIds, x ∈ rest := by
        intro x hxmem
        rw [hr] at hxmem
        rcases mem_akeys_aerase _ _ _ hxmem with ⟨h1, h2⟩
        rcases List.mem_cons.mp (hx x h1) with h3 | h3
        · exact absurd h3 h2
        · exact h3
      rcases ih ea tra e2 tr2 hx' h with ⟨h1, h2⟩
      exact ⟨h1, by rw [h2, hm]⟩

end Tsctl

namespace Tsctl

theorem pushExistingRuleset_clears (api : Api) (hok : AllOk api) (sfx rsid : String)
    (e : RulesetEntry) (m : OrgEntry) (fs : OrgFs) (tr : Trace)
    (m1 : OrgEntry) (fs1 : OrgFs) (tr1 : Trace)
    (hmod : e.modified ≠ .modDel)
    (h : pushExistingRuleset api sfx rsid e m fs tr = .ok (m1, fs1, tr1)) :
    m1 = aerase m rsid ∧ ∃ d2, fs1 = aset fs rsid d2 := by
  have hput : ∀ d, api.putRuleset rsid d = true := fun d => hok.2.2.2.2.1 rsid d
  rcases hdir : alookup fs rsid with _ | dir
  · simp [pushExistingRuleset, hdir] at h
  · simp only [pushExistingRuleset, hdir, hput, if_true, eq_self_iff_true] at h
    split at h
    · simp at h
    · rename_i ea dira acca tra hloop
      split at h
      · simp at h
      · rename_i e2 tr2 hplat
        simp only [Except.ok.injEq, Prod.mk.injEq] at h
        obtain ⟨h1, h2, h3⟩ := h
        have hea := pushLocalRules_fold api hok rsid _ _ _ _ _ ea dira acca tra hloop
        have he2 := pushPlatformRules_clears api hok rsid _ _ ea tra e2 tr2
          (fun x hx => hx) hplat
        have hmod2 : e2.modified = .modFalse := by
          rw [he2.2, hea.2]
          split
          · rfl
          · rename_i hmt
            show e.modified = .modFalse
            cases he : e.modified with
            | modTrue => exact absurd he hmt
            | modFalse => rfl
            | modDel => exact absurd he hmod
        constructor
        · rw [← h1, he2.1, hmod2]
          simp [aerase_aset]
        · exact ⟨_, h2.symm⟩

end Tsctl

namespace Tsctl

theorem localSubset_aerase (sfx : String) (m : OrgEntry) (fs : OrgFs) (k : String)
    (h : LocalSubset sfx m fs) : LocalSubset sfx (aerase m k) fs := by
  intro rsid e dir h1 h2 h3
  by_cases hk : rsid = k
  · subst hk
    rw [alookup_aerase_self] at h1
    exact absurd h1 (by simp)
  · rw [alookup_aerase_ne m k rsid hk] at h1
    exact h rsid e dir h1 h2 h3

theorem pushLoop_clears (api : Api) (sfx : String) (hok : AllOk api) (S : List String)
    (hfresh : FreshRulesetIds api S) :
    ∀ (keys : List String) (m : OrgEntry) (fs : OrgFs) (tr : Trace)
      (m1 : OrgEntry) (fs1 : OrgFs) (tr1 : Trace),
      (∀ k ∈ akeys m, k ∈ keys) →
      (∀ k ∈ keys, k ∈ S) →
      LocalSubset sfx m fs →
      pushLoop api sfx keys m fs tr = .ok (m1, fs1, tr1) →
      m1 = [] := by
  intro keys
  induction keys with
  | nil =>
    intro m fs tr m1 fs1 tr1 hkm hkS hsub h
    simp only [pushLoop, Except.ok.injEq, Prod.mk.injEq] at h
    obtain ⟨h1, h2, h3⟩ := h
    subst h1
    rcases hm : m with _ | ⟨p, t⟩
    · rfl
    · exfalso
      have hpm : p.1 ∈ akeys m := by
        rw [hm]
        simp [akeys]
      simpa using hkm _ hpm
  | cons k rest ih =>
    intro m fs tr m1 fs1 tr1 hkm hkS hsub h
    have hkS' : ∀ x ∈ rest, x ∈ S := fun x hx => hkS x (List.mem_cons_of_mem _ hx)
    have hmemS : ∀ (rsid : String) (e' : RulesetEntry),
        alookup (aerase m k) rsid = some e' → rsid ∈ S := by
      intro rsid e' h1
      have h2 := alookup_mem_akeys _ _ _ h1
      rcases mem_akeys_aerase _ _ _ h2 with ⟨h3, h4⟩
      exact hkS _ (hkm _ h3)
    have hkm' : ∀ (m' : OrgEntry), m' = aerase m k → ∀ x ∈ akeys m', x ∈ rest := by
      intro m' hm' x hx
      rw [hm'] at hx
      rcases mem_akeys_aerase _ _ _ hx with ⟨h1, h2⟩
      rcases List.mem_cons.mp (hkm _ h1) with h3 | h3
      · exact absurd h3 h2
      · exact h3
    rcases he : alookup m k with _ | e
    · simp [pushLoop, he] at h
    · by_cases hdel : e.modified = .modDel
      · simp only [pushLoop, he, hdel, eq_self_iff_true, if_true,
          pushDelRuleset, hok.1 k] at h
        exact ih (aerase m k) fs _ m1 fs1 tr1 (hkm' _ rfl) hkS'
          (localSubset_aerase sfx m fs k hsub) h
      · by_cases hlo : strEndsWith k sfx = true
        · simp only [pushLoop, he, hdel, hlo, if_true, if_false] at h
          rcases hstep : pushNewRuleset api k e m fs tr with ⟨msg, trc⟩ | ⟨ma, fsa, tra⟩
          · simp [hstep] at h
          · simp only [hstep] at h
            rcases pushNewRuleset_clears api hok k e m fs tr ma fsa tra
              (fun dir hdir => hsub k e dir he hlo hdir) hstep with ⟨hma, n, d1, hn, hfsa⟩
            subst hma
            have hsub' : LocalSubset sfx (aerase m k) fsa := by
              intro rsid e' dir' h1 h2 h3
              have hne : rsid ≠ k := by
                intro hkk
                subst hkk
                rw [alookup_aerase_self] at h1
                exact absurd h1 (by simp)
              have hnS : rsid ∈ S := hmemS rsid e' h1
              have hnn : rsid ≠ n := by
                intro hnn
                subst hnn
                rcases hn with ⟨d, hd⟩
                exact hfresh d rsid hd hnS
              rw [hfsa, alookup_aset_ne _ _ _ _ hnn, alookup_aerase_ne _ _ _ hne] at h3
              rw [alookup_aerase_ne _ _ _ hne] at h1
              exact hsub rsid e' dir' h1 h2 h3
            exact ih (aerase m k) fsa _ m1 fs1 tr1 (hkm' _ rfl) hkS' hsub' h
        · simp only [pushLoop, he, hdel, hlo, if_false, Bool.false_eq_true] at h
          rcases hstep : pushExistingRuleset api sfx k e m fs tr
            with ⟨msg, trc⟩ | ⟨ma, fsa, tra⟩
          · simp [hstep] at h
          · simp only [hstep] at h
            rcases pushExistingRuleset_clears api hok sfx k e m fs tr ma fsa tra hdel hstep
              with ⟨hma, d2, hfsa⟩
            subst hma
            have hsub' : LocalSubset sfx (aerase m k) fsa := by
              intro rsid e' dir' h1 h2 h3
              have hne : rsid ≠ k := by
                intro hkk
                subst hkk
                rw [alookup_aerase_self] at h1
                exact absurd h1 (by simp)
              rw [hfsa, alookup_aset_ne _ _ _ _ hne] at h3
              rw [alookup_aerase_ne _ _ _ hne] at h1
              exact hsub rsid e' dir' h1 h2 h3
            exact ih (aerase m k) fsa _ m1 fs1 tr1 (hkm' _ rfl) hkS' hsub' h

end Tsctl

namespace Tsctl

/-- C1 amended: push is idempotent per organization provided additionally
that every rule tracked in the state entry of a pending local-only ruleset
appears in that ruleset's on-disk ruleIds list and that remote-assigned
ruleset ids do not collide with pending ruleset ids: when the first push
completes with every remote call succeeding, the organization entry is gone
from the written state file and a second push on the same organization
performs no remote writes and changes nothing, because push is a no-op
whenever the organization is absent from the state file. -/
theorem push_idempotent_amended (api : Api) (sfx org : String) (fs : OrgFs)
    (st : StateFile) (m : OrgEntry)
    (hm : alookup st.organizations org = some m)
    (hok : AllOk api)
    (hfresh : FreshRulesetIds api (akeys m))
    (hsub : LocalSubset sfx m fs)
    (tr : Trace) (fs1 : OrgFs) (st1 : StateFile)
    (hrun : push api sfx org fs st = ⟨tr, .ok (fs1, st1)⟩) :
    alookup st1.organizations org = none ∧
    (push api sfx org fs1 st1).trace = [] ∧
    (push api sfx org fs1 st1).out = .ok (fs1, st1) := by
  simp only [push, hm] at hrun
  rcases hl : pushLoop api sfx (akeys m) m fs [] with ⟨msg, trc⟩ | ⟨m1, fsa, tra⟩
  · simp [hl] at hrun
  · simp only [hl] at hrun
    have hm1 : m1 = [] :=
      pushLoop_clears api sfx hok (akeys m) hfresh (akeys m) m fs [] m1 fsa tra
        (fun k hk => hk) (fun k hk => hk) hsub hl
    subst hm1
    simp only [List.length_nil, eq_self_iff_true, if_true, PushResult.mk.injEq,
      Except.ok.injEq, Prod.mk.injEq] at hrun
    obtain ⟨h1, h2, h3⟩ := hrun
    subst h3
    have habs : alookup
        ({ st with organizations := aerase st.organizations org } : StateFile).organizations
        org = none := alookup_aerase_self _ _
    exact ⟨habs, by simp [push, habs], by simp [push, habs]⟩

/-- C1 counterexample: a state reachable by create_ruleset, create_rule and
update_ruleset (the latter emptying the on-disk ruleIds while the rule stays
tracked) whose first push completes with its single remote call (the ruleset
POST) succeeding against an all-success capability, yet relocates the entry
under the remote-assigned id instead of dropping it; the second push then
PUTs the ruleset, PUTs the rule and POSTs its tags, so it performs remote
writes, refuting the claim as stated. -/
theorem push_idempotence_cex :
    AllOk allOkApi ∧
    (push allOkApi "-localonly" "o"
        [("a-localonly", ⟨⟨[], "mt"⟩, [("b", ⟨"rj", "tj"⟩)]⟩)]
        ⟨"", [("o", [("a-localonly", ⟨.modTrue, [("b", .both)]⟩)])]⟩).out =
      .ok ([("N1", ⟨⟨[], "mt"⟩, [("b", ⟨"rj", "tj"⟩)]⟩)],
        ⟨"", [("o", [("N1", ⟨.modTrue, [("b", .both)]⟩)])]⟩) ∧
    (push allOkApi "-localonly" "o"
        [("N1", ⟨⟨[], "mt"⟩, [("b", ⟨"rj", "tj"⟩)]⟩)]
        ⟨"", [("o", [("N1", ⟨.modTrue, [("b", .both)]⟩)])]⟩).trace ≠ [] := by
  refine ⟨⟨fun x => rfl, fun d => rfl, fun t d => rfl, fun r d => rfl, fun r d => rfl,
    fun a b c => rfl, fun a b => rfl⟩, rfl, ?_⟩
  decide

/-- Witness for C1 amended: an all-success push of a local-only ruleset whose
tracked rule appears in the on-disk ruleIds empties the organization entry,
and the second push is a no-op. -/
theorem push_idempotent_amended_witness :
    alookup (⟨"", []⟩ : StateFile).organizations "o" = none ∧
    (push allOkApi "-localonly" "o"
        [("N1", ⟨⟨["N2"], "mt"⟩, [("N2", ⟨"rj", "tj"⟩)]⟩)] ⟨"", []⟩).trace = [] ∧
    (push allOkApi "-localonly" "o"
        [("N1", ⟨⟨["N2"], "mt"⟩, [("N2", ⟨"rj", "tj"⟩)]⟩)] ⟨"", []⟩).out =
      .ok ([("N1", ⟨⟨["N2"], "mt"⟩, [("N2", ⟨"rj", "tj"⟩)]⟩)], ⟨"", []⟩) := by
  refine push_idempotent_amended allOkApi "-localonly" "o"
    [("a-localonly", ⟨⟨["b-localonly"], "mt"⟩, [("b-localonly", ⟨"rj", "tj"⟩)]⟩)]
    ⟨"", [("o", [("a-localonly", ⟨.modTrue, [("b-localonly", .both)]⟩)])]⟩
    [("a-localonly", ⟨.modTrue, [("b-localonly", .both)]⟩)]
    rfl
    ⟨fun x => rfl, fun d => rfl, fun t d => rfl, fun r d => rfl, fun r d => rfl,
      fun a b c => rfl, fun a b => rfl⟩
    ?_ ?_ _ _ _ rfl
  · intro d i h
    injection h with h2
    subst h2
    decide
  · intro rsid e dir h1 h2 h3
    simp only [alookup] at h1
    split at h1
    · rename_i hpos
      subst hpos
      injection h1 with h1'
      subst h1'
      simp only [alookup] at h3
      split at h3
      · injection h3 with h3'
        subst h3'
        intro p hp
        simp only [List.mem_singleton] at hp
        subst hp
        decide
      · exact absurd h3 (by simp)
    · exact absurd h1 (by simp)

end Tsctl
